import Mathlib

/-!
# pgme: Prometheus nVidia GPU metrics exporter

A shallow embedding of the metrics pipeline of `pgme.go` (`isNumeric`, `parseCSV`,
`metrics`) together with the parts of the Go standard library the pipeline calls
(`strconv.ParseFloat`, `fmt.Sprintf`, `fmt.Fprintf`, `csv.Reader.ReadAll`).

Go strings are modelled by Lean strings (sequences of characters; the exporter reads the
text printed by `nvidia-smi`), Go slices by lists, Go `int` by `Nat` where the value is a
length, and a Go run-time panic by the error branch of `Except`.
-/

namespace Pgme

/-! ## Go run time -/

/-- A Go run-time panic raised by an index or a slice expression. -/
inductive RuntimePanic where
  | indexOutOfRange (index length : Nat)
  | sliceBoundsOutOfRange (low length : Nat)
  deriving DecidableEq, Repr

/-- The Go index expression `xs[i]`: the element, or a panic when `i` is not below `len(xs)`. -/
def index {α : Type} (xs : List α) (i : Nat) : Except RuntimePanic α :=
  match xs.get? i with
  | some x => .ok x
  | none => .error (.indexOutOfRange i xs.length)

/-- The Go slice expression `xs[lo:]`: the tail from `lo`, or a panic when `lo > len(xs)`. -/
def sliceFrom {α : Type} (xs : List α) (lo : Nat) : Except RuntimePanic (List α) :=
  if lo ≤ xs.length then .ok (xs.drop lo) else .error (.sliceBoundsOutOfRange lo xs.length)

/-! ## strconv.ParseFloat

`isNumeric` only looks at whether `strconv.ParseFloat(s, 64)` returns a nil error. The model
follows `strconv/atof.go`: `special` (infinities and NaN), `readFloat` (decimal and
hexadecimal mantissa, exponent, underscores) and the range error. The conversion itself is
correctly rounded, so a range error arises exactly when the exact value of the literal is at
least `2^1024 - 2^970`, half a unit in the last place above the largest `float64`; the model
therefore keeps every mantissa digit (Go keeps 19 of them and a truncation flag for its fast
paths and reads the digits a second time on the slow path). -/

namespace strconv

/-- Go: `lower(c) = c | ('x' ^ 'X')`, as a code point. -/
def lower (c : Char) : Nat := c.toNat ||| 32

/-- Go: `'0' <= c && c <= '9'`. -/
def isDigit (c : Char) : Bool := 48 ≤ c.toNat && c.toNat ≤ 57

/-- Go: `'a' <= lower(c) && lower(c) <= 'f'`. -/
def isHexLetter (c : Char) : Bool := 97 ≤ lower c && lower c ≤ 102

/-- The case folding of `commonPrefixLenIgnoreCase`: `'A'..'Z'` are moved to lower case. -/
def foldAZ (c : Char) : Nat := if 65 ≤ c.toNat ∧ c.toNat ≤ 90 then c.toNat + 32 else c.toNat

/-- Go: `commonPrefixLenIgnoreCase(s, prefix)`, the length of the common prefix of `s` and
the lower-case `pre`, ignoring the case of `s`. -/
def commonPrefixLenIgnoreCase : List Char → List Char → Nat
  | c :: s, p :: pre => if foldAZ c = p.toNat then commonPrefixLenIgnoreCase s pre + 1 else 0
  | _, _ => 0

/-- The `case 'i', 'I'` arm of `special`, entered with `nsign` sign characters consumed. -/
def specialInf (s : List Char) (nsign : Nat) : Option Nat :=
  let n := commonPrefixLenIgnoreCase s "infinity".data
  let n := if 3 < n ∧ n < 8 then 3 else n
  if n = 3 ∨ n = 8 then some (nsign + n) else none

/-- Go: `special(s)`. The result is the number of characters of the prefix of `s` that spell
a possibly signed `inf`, `infinity` or an unsigned `nan` (any case), `none` when `ok` is
false. -/
def special (s : List Char) : Option Nat :=
  match s with
  | [] => none
  | c :: rest =>
    if c = '+' ∨ c = '-' then specialInf rest 1
    else if c = 'i' ∨ c = 'I' then specialInf s 0
    else if c = 'n' ∨ c = 'N' then
      if commonPrefixLenIgnoreCase s "nan".data = 3 then some 3 else none
    else none

/-- The variables of the mantissa loop of `readFloat`. `mantissa` holds every digit read
after the leading zeros and `nd` counts them. -/
structure Digits where
  mantissa : Nat
  nd : Nat
  dp : Int
  sawdot : Bool
  sawdigits : Bool
  underscores : Bool
  deriving DecidableEq, Repr

/-- The mantissa loop of `readFloat` (`loop:`), in base 16 when `hex` and in base 10
otherwise. Returns the variables and the unread rest of the string. -/
def readDigits (hex : Bool) : List Char → Digits → Digits × List Char
  | [], st => (st, [])
  | c :: cs, st =>
    if c = '_' then readDigits hex cs { st with underscores := true }
    else if c = '.' then
      if st.sawdot then (st, c :: cs)
      else readDigits hex cs { st with sawdot := true, dp := st.nd }
    else if isDigit c then
      if c = '0' ∧ st.nd = 0 then
        readDigits hex cs { st with sawdigits := true, dp := st.dp - 1 }
      else
        readDigits hex cs { st with
          sawdigits := true
          nd := st.nd + 1
          mantissa := st.mantissa * (if hex then 16 else 10) + (c.toNat - 48) }
    else if hex && isHexLetter c then
      readDigits hex cs { st with
        sawdigits := true
        nd := st.nd + 1
        mantissa := st.mantissa * 16 + (lower c - 97 + 10) }
    else (st, c :: cs)

/-- The exponent loop of `readFloat`: digits and underscores; the exponent stops growing
once it has reached 10000. Returns `e`, the underscore flag and the unread rest. -/
def readExpDigits : List Char → Nat → Bool → Nat × Bool × List Char
  | [], e, u => (e, u, [])
  | c :: cs, e, u =>
    if isDigit c then readExpDigits cs (if e < 10000 then e * 10 + (c.toNat - 48) else e) u
    else if c = '_' then readExpDigits cs e true
    else (e, u, c :: cs)

/-- The number loop of `underscoreOK`; `saw` is the last character class seen
(`'0'`, `'_'`, `'!'`, `'^'`). -/
def underscoreLoop (hex : Bool) : List Char → Char → Bool
  | [], saw => saw != '_'
  | c :: cs, saw =>
    if isDigit c || (hex && isHexLetter c) then underscoreLoop hex cs '0'
    else if c = '_' then
      if saw != '0' then false else underscoreLoop hex cs '_'
    else if saw = '_' then false
    else underscoreLoop hex cs '!'

/-- Go: `underscoreOK(s)`: underscores appear only between digits or between a base prefix
and a digit. -/
def underscoreOK (s : List Char) : Bool :=
  let s := match s with
    | c :: rest => if c = '-' ∨ c = '+' then rest else s
    | [] => s
  match s with
  | a :: b :: rest =>
    if a = '0' ∧ (lower b = 98 ∨ lower b = 111 ∨ lower b = 120) then
      underscoreLoop (lower b = 120) rest '0'
    else underscoreLoop false s '^'
  | _ => underscoreLoop false s '^'

/-- What `readFloat` returns when `ok`: the base, the mantissa with all its digits, the
exponent of the base (10, or 2 when `hex`) and the unread rest `s[i:]`. -/
structure FloatLit where
  neg : Bool
  hex : Bool
  mantissa : Nat
  exp : Int
  rest : List Char
  deriving DecidableEq, Repr

/-- The optional exponent of `readFloat`, read from `s` (at the exponent character).
Returns the signed exponent, the underscore flag and the unread rest; `none` is the early
`return` with `ok` false. -/
def readExponent (hex : Bool) (s : List Char) (underscores : Bool) :
    Option (Int × Bool × List Char) :=
  match s with
  | c :: s1 =>
    if lower c = (if hex then 112 else 101) then
      match s1 with
      | [] => none
      | d :: s2 =>
        let esign : Int := if d = '-' then -1 else 1
        let s3 := if d = '+' ∨ d = '-' then s2 else s1
        match s3 with
        | [] => none
        | f :: _ =>
          if isDigit f then
            let r := readExpDigits s3 0 underscores
            some (r.1 * esign, r.2.1, r.2.2)
          else none
    else if hex then none
    else some (0, underscores, s)
  | [] => if hex then none else some (0, underscores, s)

/-- The base prefix test of `readFloat`: `i+2 < len(s) && s[i] == '0' && lower(s[i+1]) == 'x'`. -/
def hexPrefix : List Char → Bool
  | a :: b :: _ :: _ => decide (a = '0' ∧ lower b = 120)
  | _ => false

/-- The part of `readFloat` after the mantissa loop, which left the variables `st` and the
unread `rest` of `s`: the digit check, the exponent, the underscore check. -/
def readFloatExp (s : List Char) (neg hex : Bool) (st : Digits) (rest : List Char) :
    Option FloatLit :=
  if !st.sawdigits then none
  else
    let dp : Int := if st.sawdot then st.dp else st.nd
    let dp : Int := if hex then dp * 4 else dp
    let ndMant : Int := if hex then st.nd * 4 else st.nd
    match readExponent hex rest st.underscores with
    | none => none
    | some (e, underscores, rest1) =>
      let dp := dp + e
      let exp : Int := if st.mantissa ≠ 0 then dp - ndMant else 0
      if underscores && !underscoreOK (s.take (s.length - rest1.length)) then none
      else some ⟨neg, hex, st.mantissa, exp, rest1⟩

/-- Go: `readFloat(s)`: the optional sign, the optional base prefix, the mantissa loop and
then `readFloatExp`. -/
def readFloat (s : List Char) : Option FloatLit :=
  match s with
  | [] => none
  | c0 :: tl =>
    let s1 := if c0 = '+' ∨ c0 = '-' then tl else s
    let hex := hexPrefix s1
    let r := readDigits hex (if hex then s1.drop 2 else s1) ⟨0, 0, 0, false, false, false⟩
    readFloatExp s (decide (c0 = '-')) hex r.1 r.2

/-- The least magnitude that rounds to infinity: `2^1024 - 2^970 = (2^54 - 1) * 2^970`. -/
def overflowThreshold : Nat := (2 ^ 54 - 1) * (2 ^ 97) ^ 10

/-- The range error of `atof64`: the value `mantissa * base^exp` is at least
`overflowThreshold`. -/
def FloatLit.overflows (l : FloatLit) : Bool :=
  let b : Nat := if l.hex then 2 else 10
  match l.exp with
  | Int.ofNat k => decide (overflowThreshold ≤ l.mantissa * b ^ k)
  | Int.negSucc k => decide (overflowThreshold * b ^ (k + 1) ≤ l.mantissa)

/-- `strconv.ParseFloat(s, 64)` returns a nil error: either `special` consumes all of `s`,
or `readFloat` succeeds on all of `s` and the value is in range. -/
def parseFloatOk (s : List Char) : Bool :=
  match special s with
  | some n => n == s.length
  | none =>
    match readFloat s with
    | none => false
    | some l => l.rest.isEmpty && !l.overflows

end strconv

/-! ## fmt.Fprintf without operands

`metrics` ends with `fmt.Fprintf(response, result)`: the rendered text is passed as the
format string and there are no operands. The model follows `doPrintf` of `fmt/print.go`
for an empty operand list: text up to a `%` is copied, and a `%` starts a directive (flags,
argument index, width, precision, verb) that is replaced by `%` for the verb `%` and by an
error marker otherwise. -/

namespace fmt

/-- Go: `parsenum(s, start, end)` on the characters `s[start:end]`. Returns the number,
whether a digit was read, and the unread rest (`newi`); a number above a million gives up
with `newi = end`. -/
def parsenum : List Char → Nat → Bool → Nat × Bool × List Char
  | [], num, isnum => (num, isnum, [])
  | c :: cs, num, isnum =>
    if strconv.isDigit c then
      if 1000000 < num then (0, false, [])
      else parsenum cs (num * 10 + (c.toNat - 48)) true
    else (num, isnum, c :: cs)

/-- Go: `parseArgNumber(format)`, where `format` starts with `[`. Returns the number of
characters to consume (`wid`) and whether a well-formed `[n]` was read (`ok`). -/
def parseArgNumber (format : List Char) : Nat × Bool :=
  if format.length < 3 then (1, false)
  else
    let inner := (format.drop 1).takeWhile (fun c => c != ']')
    if inner.length + 1 < format.length then
      let r := parsenum inner 0 false
      if !r.2.1 || !r.2.2.isEmpty then (inner.length + 2, false)
      else (inner.length + 2, true)
    else (1, false)

/-- The variables of one directive of `doPrintf`: the unread format, `afterIndex`,
`p.goodArgNum` and the text written so far. -/
structure Directive where
  rest : List Char
  afterIndex : Bool
  goodArgNum : Bool
  out : List Char
  deriving DecidableEq, Repr

/-- Go: `p.argNumber(argNum, format, i, len(a))` with no operands: an index `[n]` can never
select an operand, so it clears `goodArgNum`. -/
def argNumber (d : Directive) : Directive :=
  match d.rest with
  | c :: _ =>
    if c = '[' then
      let r := parseArgNumber d.rest
      { d with rest := d.rest.drop r.1, afterIndex := r.2, goodArgNum := false }
    else { d with afterIndex := false }
  | [] => { d with afterIndex := false }

/-- The flag characters skipped after `%`. -/
def isFlag (c : Char) : Bool := c = '#' || c = '0' || c = '+' || c = '-' || c = ' '

/-- The width of a directive: `*` asks for an operand that is not there (`%!(BADWIDTH)`),
otherwise an optional number. -/
def width (d : Directive) : Directive :=
  match d.rest with
  | '*' :: r => { d with rest := r, afterIndex := false, out := d.out ++ "%!(BADWIDTH)".data }
  | _ =>
    let n := parsenum d.rest 0 false
    { d with rest := n.2.2, goodArgNum := d.goodArgNum && !(d.afterIndex && n.2.1) }

/-- The precision of a directive, introduced by `.`. -/
def precision (d : Directive) : Directive :=
  match d.rest with
  | '.' :: r =>
    let d1 := argNumber { d with rest := r, goodArgNum := d.goodArgNum && !d.afterIndex }
    match d1.rest with
    | '*' :: r2 =>
      { d1 with rest := r2, afterIndex := false, out := d1.out ++ "%!(BADPREC)".data }
    | _ => { d1 with rest := (parsenum d1.rest 0 false).2.2 }
  | _ => d

/-- The verb of a directive: none at the end of the format, `%` for itself, and otherwise
an error marker, since there is no operand for it. Returns the text written for the
directive and the unread format. -/
def verb (d : Directive) : List Char × List Char :=
  match d.rest with
  | [] => (d.out ++ "%!(NOVERB)".data, [])
  | v :: r =>
    if v = '%' then (d.out ++ ['%'], r)
    else if !d.goodArgNum then (d.out ++ "%!".data ++ [v] ++ "(BADINDEX)".data, r)
    else (d.out ++ "%!".data ++ [v] ++ "(MISSING)".data, r)

/-- One directive of `doPrintf`, entered after its `%`: flags, argument index, width,
precision, argument index again, verb. -/
def directive (s : List Char) : List Char × List Char :=
  let d := argNumber ⟨s.dropWhile isFlag, false, true, []⟩
  let d := precision (width d)
  verb (if d.afterIndex then d else argNumber d)

/-- The format loop of `doPrintf` with no operands; every round consumes a character, so
`fuel` at least the length of the format is enough. -/
def doPrintf : Nat → List Char → List Char
  | 0, _ => []
  | _, [] => []
  | fuel + 1, c :: cs =>
    if c = '%' then
      let r := directive cs
      r.1 ++ doPrintf fuel r.2
    else c :: doPrintf fuel cs

/-- Go: `fmt.Fprintf(w, format)` with no operands: the text written to `w`. -/
def Fprintf (format : String) : String := ⟨doPrintf format.data.length format.data⟩

end fmt

/-! ## encoding/csv -/

namespace csv

/-- One call of `csv.Reader.Read`: a record, or a parse error. -/
abbrev ReadResult := Except String (List String)

/-- Go: `csv.Reader.ReadAll()`, run on what the successive `Read` calls deliver before
`io.EOF`: the records and a nil error, or nil records and the first error. -/
def ReadAll : List ReadResult → List (List String) → List (List String) × Option String
  | [], records => (records, none)
  | .error e :: _, _ => ([], some e)
  | .ok record :: rest, records => ReadAll rest (records ++ [record])

end csv

/-! ## pgme.go -/

/-- Go: `isNumeric(s)`: `strconv.ParseFloat(s, 64)` returns no error. -/
def isNumeric (s : String) : Bool := strconv.parseFloatOk s.data

/-- The local `metricList` of `parseCSV`. -/
def metricList : List String := [
  "gpu_power_draw",
  "gpu_power_limit",
  "gpu_clock_shader_current",
  "gpu_clock_shader_maximum",
  "gpu_clock_streaming_multiprocessor_current",
  "gpu_clock_streaming_multiprocessor_maximum",
  "gpu_clock_memory_current",
  "gpu_clock_memory_maximum",
  "gpu_temperature_processor",
  "gpu_temperature_memory",
  "gpu_utilization_processor",
  "gpu_utilization_memory",
  "gpu_utilization_fan",
  "gpu_memory_free",
  "gpu_memory_used",
  "gpu_memory_total"]

/-- Go: `fmt.Sprintf("%s[%s]", row[0], row[1])`. -/
def deviceLabel (name idx : String) : String := name ++ "[" ++ idx ++ "]"

/-- Go: `fmt.Sprintf("%s%s{gpu=\"%s\"} %s\n", result, metric, name, value)`. -/
def appendLine (result metric name value : String) : String :=
  result ++ metric ++ "\x7bgpu=\"" ++ name ++ "\"\x7d " ++ value ++ "\n"

/-- The inner loop of `parseCSV`, `for idx, value := range row[2:]`, from position `idx`
with the text accumulated in `result`. -/
def cellLoop (name : String) : List String → Nat → String → Except RuntimePanic String
  | [], _, result => .ok result
  | value :: rest, idx, result =>
    if isNumeric value then
      match index metricList idx with
      | .error p => .error p
      | .ok metric => cellLoop name rest (idx + 1) (appendLine result metric name value)
    else cellLoop name rest (idx + 1) result

/-- The outer loop of `parseCSV`, `for _, row := range records`. -/
def rowLoop : List (List String) → String → Except RuntimePanic String
  | [], result => .ok result
  | row :: rest, result =>
    match index row 0 with
    | .error p => .error p
    | .ok r0 =>
      match index row 1 with
      | .error p => .error p
      | .ok r1 =>
        match sliceFrom row 2 with
        | .error p => .error p
        | .ok cells =>
          match cellLoop (deviceLabel r0 r1) cells 0 result with
          | .error p => .error p
          | .ok result1 => rowLoop rest result1

/-- Go: `parseCSV(records)`. -/
def parseCSV (records : List (List String)) : Except RuntimePanic String :=
  rowLoop records ""

/-- The `--query-gpu` argument that `metrics` passes to `nvidia-smi`. -/
def queryGpuArg : String :=
  "--query-gpu=name,index,power.draw,power.limit,clocks.gr,clocks.max.gr,clocks.sm,clocks.max.sm,clocks.mem,clocks.max.mem,temperature.gpu,temperature.memory,utilization.gpu,utilization.memory,fan.speed,memory.free,memory.used,memory.total"

/-- Go: `fmt.Sprintf("%s%s{} %d\n", result, "gpu_count", gpu_count)`. -/
def appendCount (result : String) (gpu_count : Nat) : String :=
  result ++ "gpu_count" ++ "\x7b\x7d " ++ toString gpu_count ++ "\n"

/-- The text `metrics` renders: the value of `result` after line 175. `out` and `err` are
what `exec.Command(...).Output()` returned and `reader out` is what the CSV reader built on
`out` (with `TrimLeadingSpace`) delivers. -/
def renderedText (reader : String → List csv.ReadResult) (out : String)
    (err : Option String) : Except RuntimePanic String :=
  match err with
  | some _ => .ok (appendCount "" 0)
  | none =>
    let r := csv.ReadAll (reader out) []
    let gpu_count := r.1.length
    match r.2 with
    | some _ => .ok (appendCount "" gpu_count)
    | none =>
      match parseCSV r.1 with
      | .error p => .error p
      | .ok result => .ok (appendCount result gpu_count)

/-- Go: `metrics(response, request)`: the body written to the response, or the panic that
ends the handler before anything is written. -/
def metrics (reader : String → List csv.ReadResult) (out : String)
    (err : Option String) : Except RuntimePanic String :=
  match renderedText reader out err with
  | .error p => .error p
  | .ok result => .ok (fmt.Fprintf result)

/-! ## Specification

The vocabulary of the statements below: the rendered lines, the rows `parseCSV` can process,
the lines of a text, and the concrete rows used as examples. -/

/-- One rendered metric line, `<metric>{gpu="<name>[<index>]"} <value>` and a newline. -/
def metricLine (metric name idx value : String) : String :=
  metric ++ "\x7bgpu=\"" ++ deviceLabel name idx ++ "\"\x7d " ++ value ++ "\n"

/-- The metric lines of the cells `cells` of the device `name[idx]`, the first of which
stands at position `i` of the metric columns (it is named `metricList[i]`). -/
def linesFrom (name idx : String) : Nat → List String → List String
  | _, [] => []
  | i, value :: rest =>
    if isNumeric value then
      metricLine (metricList.getD i "") name idx value :: linesFrom name idx (i + 1) rest
    else linesFrom name idx (i + 1) rest

/-- The metric lines of a row in column order: one line for every position `i` whose cell
`row[i+2]` is accepted by `isNumeric`, under the name `metricList[i]` and the label made of
`row[0]` and `row[1]`. -/
def rowLines (row : List String) : List String :=
  ((List.range (row.length - 2)).filter fun i => isNumeric (row.getD (i + 2) "")).map fun i =>
    metricLine (metricList.getD i "") (row.getD 0 "") (row.getD 1 "") (row.getD (i + 2) "")

/-- A row `parseCSV` can process: the two identity cells are there and no cell beyond the
16 metric columns is numeric. -/
def RowOk (row : List String) : Prop :=
  2 ≤ row.length ∧ ∀ cell ∈ row.drop 18, isNumeric cell = false

/-- The lines of a text: the pieces that its newline characters separate. A text that ends
in a newline has the empty string as its last piece. -/
def lines (text : String) : List String := (text.data.splitOn '\n').map String.mk

/-- The device-count line without its newline, `gpu_count{} <n>`. -/
def countLine (n : Nat) : String := "gpu_count\x7b\x7d " ++ toString n

deriving instance DecidableEq for Except

/-- The fields that the `--query-gpu` argument lists, in order. -/
def queryFields : List String :=
  ((queryGpuArg.data.drop "--query-gpu=".length).splitOn ',').map String.mk

/-- A row with 19 cells, all of them numeric but the two identity cells. -/
def row19 : List String := ["A", "0"] ++ List.replicate 17 "1"

/-- A row of 18 cells whose device name holds line breaks. -/
def rowNewline : List String :=
  ["a\ngpu_count\x7b\x7d 1\nb", "0", "1"] ++ List.replicate 15 "N/A"

/-- A row of 18 cells whose device name holds a percent sign. -/
def rowPercent : List String := ["A%d", "0", "100.5"] ++ List.replicate 15 "N/A"

/-- A row of 20 cells whose two cells past the metric columns are not numeric. -/
def row20 : List String := ["A", "0"] ++ List.replicate 16 "1" ++ ["N/A", "[Not Supported]"]

/-- A row of 18 cells as `nvidia-smi` prints it. -/
def row18 : List String := ["NVIDIA H100", "0", "350.2", "400.0"] ++ List.replicate 14 "N/A"

namespace strconv

/-- The characters `ParseFloat` can consume: digits, hexadecimal letters, the signs, the
point, the underscore, the exponent and base letters, and the letters of `infinity` and
`nan` in either case. -/
def floatChar (c : Char) : Bool :=
  isDigit c || isHexLetter c || c == '_' || c == '.' || c == '+' || c == '-'
    || lower c == 101 || lower c == 112 || lower c == 120
    || ("infinity".data ++ "nan".data).any fun p => foldAZ c == p.toNat

/-- `rest` is what is left of `s` after a prefix of float characters. -/
def Consumes (s rest : List Char) : Prop :=
  ∃ pre, s = pre ++ rest ∧ ∀ x ∈ pre, floatChar x = true

end strconv

/-! ## Lemmas -/

set_option maxRecDepth 100000

theorem join_cons (s : String) (l : List String) : String.join (s :: l) = s ++ String.join l := by
  apply String.ext
  simp [String.data_join]

theorem join_nil : String.join [] = "" := rfl

theorem join_append (l₁ l₂ : List String) :
    String.join (l₁ ++ l₂) = String.join l₁ ++ String.join l₂ := by
  apply String.ext
  simp [String.data_join]

theorem appendLine_eq (result metric name idx value : String) :
    appendLine result metric (deviceLabel name idx) value
      = result ++ metricLine metric name idx value := by
  simp [appendLine, metricLine, String.append_assoc]

/-- An index below the length returns the element. -/
theorem index_eq_ok {α : Type} (xs : List α) (i : Nat) (h : i < xs.length) :
    index xs i = .ok (xs.get ⟨i, h⟩) := by
  simp [index, List.getElem?_eq_getElem h]

/-- An index at or past the length panics. -/
theorem index_eq_error {α : Type} (xs : List α) (i : Nat) (h : xs.length ≤ i) :
    index xs i = .error (.indexOutOfRange i xs.length) := by
  simp [index, List.getElem?_eq_none h]

theorem metricList_length : metricList.length = 16 := rfl

/-- The inner loop appends the lines of its cells when every numeric cell has a metric name. -/
theorem cellLoop_ok (name idx : String) (cells : List String) :
    ∀ (i : Nat) (result : String),
      (∀ j, j < cells.length → isNumeric (cells.getD j "") = true → i + j < 16) →
      cellLoop (deviceLabel name idx) cells i result
        = .ok (result ++ String.join (linesFrom name idx i cells)) := by
  induction cells with
  | nil => intro i result _; simp [cellLoop, linesFrom, join_nil]
  | cons v rest ih =>
    intro i result h
    have hrest : ∀ j, j < rest.length → isNumeric (rest.getD j "") = true → i + 1 + j < 16 := by
      intro j hj hn
      have := h (j + 1) (by simpa using hj) (by simpa using hn)
      omega
    by_cases hv : isNumeric v = true
    · have hi : i < metricList.length := by
        have := h 0 (by simp) (by simpa using hv)
        simpa [metricList_length] using this
      simp only [cellLoop, hv, if_true, linesFrom, index_eq_ok _ _ hi]
      rw [ih (i + 1) _ hrest, appendLine_eq, join_cons, String.append_assoc]
      congr 3
      simp [List.getElem?_eq_getElem hi]
    · simp only [cellLoop, hv, linesFrom]
      simpa using ih (i + 1) result hrest

/-- The recursive `linesFrom` is the filter over the positions of the cells. -/
theorem linesFrom_eq_range (name idx : String) (cells : List String) :
    ∀ i : Nat, linesFrom name idx i cells
      = ((List.range cells.length).filter fun j => isNumeric (cells.getD j "")).map fun j =>
          metricLine (metricList.getD (i + j) "") name idx (cells.getD j "") := by
  induction cells with
  | nil => intro i; simp [linesFrom]
  | cons v rest ih =>
    intro i
    simp only [linesFrom, List.length_cons, List.range_succ_eq_map, List.filter_cons,
      List.getD_cons_zero]
    rw [ih (i + 1)]
    have hfun : (fun j => metricLine (metricList.getD (i + 1 + j) "") name idx (rest.getD j ""))
        = (fun j => metricLine (metricList.getD (i + j) "") name idx ((v :: rest).getD j ""))
            ∘ Nat.succ := by
      funext j
      simp [Nat.add_assoc, Nat.add_comm 1 j]
    have hfil : (fun j => isNumeric (rest.getD j ""))
        = (fun j => isNumeric ((v :: rest).getD j "")) ∘ Nat.succ := by
      funext j
      simp
    rw [hfun, hfil]
    by_cases hv : isNumeric v = true
    · simp only [hv, if_true, List.map_cons, Nat.add_zero, List.getD_cons_zero]
      rw [List.filter_map, List.map_map]
    · simp only [hv, Bool.false_eq_true, if_false]
      rw [List.filter_map, List.map_map]

theorem rowOk_cells (row : List String) (h : RowOk row) :
    ∀ j, j < (row.drop 2).length → isNumeric ((row.drop 2).getD j "") = true → 0 + j < 16 := by
  intro j hj hn
  by_contra hge
  have h18 : 18 ≤ j + 2 := by omega
  have hlen : j + 2 < row.length := by
    simp at hj; omega
  have hmem : row.getD (j + 2) "" ∈ row.drop 18 := by
    rw [List.mem_iff_getElem]
    refine ⟨j + 2 - 18, by simp; omega, ?_⟩
    simp [List.getD_eq_getElem?_getD, List.getElem?_eq_getElem hlen]
    congr 1
    omega
  have := h.2 _ hmem
  simp [List.getD_eq_getElem?_getD, Nat.add_comm 2 j] at hn
  simp [List.getD_eq_getElem?_getD] at this
  simp [this] at hn

theorem linesFrom_drop_two (row : List String) :
    linesFrom (row.getD 0 "") (row.getD 1 "") 0 (row.drop 2) = rowLines row := by
  rw [linesFrom_eq_range]
  simp [rowLines, List.getD_eq_getElem?_getD, Nat.add_comm 2]

/-- The outer loop appends the lines of its rows, row after row. -/
theorem rowLoop_ok (records : List (List String)) :
    ∀ result : String, (∀ row ∈ records, RowOk row) →
      rowLoop records result
        = .ok (result ++ String.join (records.map fun row => String.join (rowLines row))) := by
  induction records with
  | nil => intro result _; simp [rowLoop, join_nil]
  | cons row rest ih =>
    intro result h
    have hrow := h row (by simp)
    have h0 : 0 < row.length := by have := hrow.1; omega
    have h1 : 1 < row.length := by have := hrow.1; omega
    have hcells := cellLoop_ok (row.get ⟨0, h0⟩) (row.get ⟨1, h1⟩) (row.drop 2) 0 result
      (rowOk_cells row hrow)
    have e0 : row.get ⟨0, h0⟩ = row.getD 0 "" := by
      simp [List.getD_eq_getElem?_getD, List.getElem?_eq_getElem h0]
    have e1 : row.get ⟨1, h1⟩ = row.getD 1 "" := by
      simp [List.getD_eq_getElem?_getD, List.getElem?_eq_getElem h1]
    rw [e0, e1, linesFrom_drop_two] at hcells
    rw [rowLoop, index_eq_ok _ _ h0, index_eq_ok _ _ h1]
    simp only [sliceFrom, hrow.1, if_true, e0, e1, hcells]
    rw [ih _ (fun r hr => h r (by simp [hr]))]
    simp [join_cons, String.append_assoc]

/-- On rows it can process, `parseCSV` returns the lines of the rows in order. -/
theorem parseCSV_ok (records : List (List String)) (h : ∀ row ∈ records, RowOk row) :
    parseCSV records = .ok (String.join (records.map fun row => String.join (rowLines row))) := by
  simpa [parseCSV] using rowLoop_ok records "" h

theorem linesFrom_append (name idx : String) (a b : List String) :
    ∀ i : Nat, linesFrom name idx i (a ++ b)
      = linesFrom name idx i a ++ linesFrom name idx (i + a.length) b := by
  induction a with
  | nil => intro i; simp [linesFrom]
  | cons v rest ih =>
    intro i
    have e : i + 1 + rest.length = i + (rest.length + 1) := by omega
    rw [List.cons_append]
    simp only [linesFrom, List.length_cons]
    rw [ih (i + 1), e]
    split <;> simp

theorem linesFrom_not_numeric (name idx : String) (cells : List String)
    (h : ∀ cell ∈ cells, isNumeric cell = false) :
    ∀ i : Nat, linesFrom name idx i cells = [] := by
  induction cells with
  | nil => intro i; simp [linesFrom]
  | cons v rest ih =>
    intro i
    have hv := h v (by simp)
    simp only [linesFrom, hv, Bool.false_eq_true, if_false]
    exact ih (fun c hc => h c (by simp [hc])) _

theorem linesFrom_eq_zip (name idx : String) (cells : List String) :
    ∀ i : Nat, (∀ j, j < cells.length → isNumeric (cells.getD j "") = true → i + j < 16) →
      linesFrom name idx i cells
        = (((metricList.drop i).zip cells).filter fun p => isNumeric p.2).map fun p =>
            metricLine p.1 name idx p.2 := by
  induction cells with
  | nil => intro i _; simp [linesFrom]
  | cons v rest ih =>
    intro i h
    have hrest : ∀ j, j < rest.length → isNumeric (rest.getD j "") = true → i + 1 + j < 16 := by
      intro j hj hn
      have := h (j + 1) (by simpa using hj) (by simpa using hn)
      omega
    by_cases hi : i < metricList.length
    · rw [List.drop_eq_getElem_cons hi]
      simp only [linesFrom, List.zip_cons_cons, List.filter_cons, ih (i + 1) hrest]
      have e : metricList.getD i "" = metricList[i] := by
        simp [List.getElem?_eq_getElem hi]
      rw [e]
      split <;> simp
    · have hall : ∀ cell ∈ v :: rest, isNumeric cell = false := by
        intro cell hc
        obtain ⟨j, hj, rfl⟩ := List.mem_iff_getElem.mp hc
        by_contra hn
        have := h j hj (by
          simpa [List.getD_eq_getElem?_getD, List.getElem?_eq_getElem hj] using hn)
        simp [metricList_length] at hi
        omega
      rw [linesFrom_not_numeric _ _ _ hall, List.drop_eq_nil_of_le (by omega)]
      simp

/-- The lines of a row are those of `metricList` zipped with the metric cells. -/
theorem rowLines_eq_zip (row : List String) (h : RowOk row) :
    rowLines row
      = ((metricList.zip (row.drop 2)).filter fun p => isNumeric p.2).map fun p =>
          metricLine p.1 (row.getD 0 "") (row.getD 1 "") p.2 := by
  rw [← linesFrom_drop_two, linesFrom_eq_zip _ _ _ 0 (rowOk_cells row h)]
  simp

/-- Cells past the first 18 that are not numeric add no line. -/
theorem rowLines_take (row : List String) (h : RowOk row) :
    rowLines (row.take 18) = rowLines row := by
  rw [← linesFrom_drop_two, ← linesFrom_drop_two]
  have hsplit : row.drop 2 = (row.take 18).drop 2 ++ row.drop 18 := by
    conv_lhs => rw [← List.take_append_drop 18 row]
    rw [List.drop_append_of_le_length]
    simp; have := h.1; omega
  rw [hsplit, linesFrom_append, linesFrom_not_numeric _ _ (row.drop 18) h.2]
  have e0 : (row.take 18).getD 0 "" = row.getD 0 "" := by
    simp [List.getD_eq_getElem?_getD, List.getElem?_take]
  have e1 : (row.take 18).getD 1 "" = row.getD 1 "" := by
    simp [List.getD_eq_getElem?_getD, List.getElem?_take]
  simp [e0, e1]

theorem rowOk_take (row : List String) (h : 2 ≤ row.length) : RowOk (row.take 18) := by
  refine ⟨by simp; omega, ?_⟩
  intro cell hc
  rw [List.drop_eq_nil_of_le (by simp)] at hc
  simp at hc

theorem rowOk_of_le (row : List String) (h : 2 ≤ row.length) (h18 : row.length ≤ 18) :
    RowOk row := by
  refine ⟨h, ?_⟩
  intro cell hc
  rw [List.drop_eq_nil_of_le h18] at hc
  simp at hc

/-- A numeric cell past the 16 metric names makes the inner loop panic. -/
theorem cellLoop_error (name : String) (cells : List String) :
    ∀ (i : Nat) (result : String),
      (∃ cell ∈ cells.drop (16 - i), isNumeric cell = true) →
      ∃ p, cellLoop name cells i result = .error p := by
  induction cells with
  | nil => intro i result h; simp at h
  | cons v rest ih =>
    intro i result h
    by_cases hv : isNumeric v = true
    · by_cases hi : i < metricList.length
      · simp only [cellLoop, hv, if_true, index_eq_ok _ _ hi]
        apply ih
        obtain ⟨cell, hc, hn⟩ := h
        have e : 16 - i = (16 - (i + 1)) + 1 := by
          simp [metricList_length] at hi; omega
        rw [e, List.drop_succ_cons] at hc
        exact ⟨cell, hc, hn⟩
      · simp only [cellLoop, hv, if_true, index_eq_error _ _ (Nat.le_of_not_lt hi)]
        exact ⟨_, rfl⟩
    · simp only [cellLoop, hv]
      apply ih
      obtain ⟨cell, hc, hn⟩ := h
      by_cases hi : i < 16
      · have e : 16 - i = (16 - (i + 1)) + 1 := by omega
        rw [e, List.drop_succ_cons] at hc
        exact ⟨cell, hc, hn⟩
      · have e : 16 - i = 0 := by omega
        have e' : 16 - (i + 1) = 0 := by omega
        rw [e, List.drop_zero] at hc
        rw [e', List.drop_zero]
        rcases List.mem_cons.mp hc with rfl | hc
        · exact absurd hn hv
        · exact ⟨cell, hc, hn⟩

theorem rowLoop_cons_ok (row : List String) (rest : List (List String)) (result : String)
    (hrow : RowOk row) :
    rowLoop (row :: rest) result = rowLoop rest (result ++ String.join (rowLines row)) := by
  have h0 : 0 < row.length := by have := hrow.1; omega
  have h1 : 1 < row.length := by have := hrow.1; omega
  have hcells := cellLoop_ok (row.get ⟨0, h0⟩) (row.get ⟨1, h1⟩) (row.drop 2) 0 result
    (rowOk_cells row hrow)
  have e0 : row.get ⟨0, h0⟩ = row.getD 0 "" := by
    simp [List.getD_eq_getElem?_getD, List.getElem?_eq_getElem h0]
  have e1 : row.get ⟨1, h1⟩ = row.getD 1 "" := by
    simp [List.getD_eq_getElem?_getD, List.getElem?_eq_getElem h1]
  rw [e0, e1, linesFrom_drop_two] at hcells
  rw [rowLoop, index_eq_ok _ _ h0, index_eq_ok _ _ h1]
  simp only [sliceFrom, hrow.1, if_true, e0, e1, hcells]

/-- A row that is not `RowOk` makes the outer loop panic. -/
theorem rowLoop_error (records : List (List String)) :
    ∀ result : String, (∃ row ∈ records, ¬ RowOk row) →
      ∃ p, rowLoop records result = .error p := by
  induction records with
  | nil => intro result h; simp at h
  | cons row rest ih =>
    intro result h
    by_cases hrow : RowOk row
    · have hrest : ∃ r ∈ rest, ¬ RowOk r := by
        obtain ⟨r, hr, hbad⟩ := h
        rcases List.mem_cons.mp hr with rfl | hr
        · exact absurd hrow hbad
        · exact ⟨r, hr, hbad⟩
      rw [rowLoop_cons_ok row rest result hrow]
      exact ih _ hrest
    · by_cases h0 : 0 < row.length
      · by_cases h1 : 1 < row.length
        · have h2 : 2 ≤ row.length := by omega
          have hnum : ∃ cell ∈ (row.drop 2).drop (16 - 0), isNumeric cell = true := by
            by_contra hno
            apply hrow
            refine ⟨h2, ?_⟩
            intro cell hc
            by_contra hn
            apply hno
            refine ⟨cell, ?_, by simpa using hn⟩
            simpa using hc
          obtain ⟨p, hp⟩ := cellLoop_error
            (deviceLabel (row.get ⟨0, h0⟩) (row.get ⟨1, h1⟩)) (row.drop 2) 0 result hnum
          refine ⟨p, ?_⟩
          rw [rowLoop, index_eq_ok _ _ h0, index_eq_ok _ _ h1]
          simp only [sliceFrom, h2, if_true, hp]
        · refine ⟨.indexOutOfRange 1 row.length, ?_⟩
          rw [rowLoop, index_eq_ok _ _ h0, index_eq_error _ _ (Nat.le_of_not_lt h1)]
      · refine ⟨.indexOutOfRange 0 row.length, ?_⟩
        rw [rowLoop, index_eq_error _ _ (Nat.le_of_not_lt h0)]

namespace strconv

theorem consumes_cons {c : Char} {cs rest : List Char} (hc : floatChar c = true)
    (h : ∃ pre, cs = pre ++ rest ∧ ∀ x ∈ pre, floatChar x = true) :
    ∃ pre, c :: cs = pre ++ rest ∧ ∀ x ∈ pre, floatChar x = true := by
  obtain ⟨pre, hpre, hall⟩ := h
  refine ⟨c :: pre, by rw [List.cons_append, ← hpre], ?_⟩
  intro x hx
  rcases List.mem_cons.mp hx with rfl | hx
  · exact hc
  · exact hall x hx

theorem consumes_nil (cs : List Char) :
    ∃ pre, cs = pre ++ cs ∧ ∀ x ∈ pre, floatChar x = true :=
  ⟨[], by simp, by simp⟩

theorem readDigits_consumes (hex : Bool) (cs : List Char) :
    ∀ (st : Digits), ∃ pre, cs = pre ++ (readDigits hex cs st).2 ∧ ∀ c ∈ pre, floatChar c = true := by
  induction cs with
  | nil => intro st; exact ⟨[], by simp [readDigits], by simp⟩
  | cons c cs ih =>
    intro st
    by_cases h1 : c = '_'
    · simp only [readDigits, h1, if_true]
      exact consumes_cons (by decide) (ih _)
    by_cases h2 : c = '.'
    · by_cases h3 : st.sawdot = true
      · simp only [readDigits, h1, h2, h3, if_true, if_false]
        exact consumes_nil _
      · simp only [readDigits, h1, h2, h3, if_true, if_false]
        exact consumes_cons (by decide) (ih _)
    by_cases h4 : isDigit c = true
    · have hc : floatChar c = true := by simp [floatChar, h4]
      by_cases h5 : c = '0' ∧ st.nd = 0
      · simp only [readDigits, h1, h2, h4, h5, if_true, if_false, and_self]
        exact consumes_cons (by decide) (ih _)
      · simp only [readDigits, h1, h2, h4, h5, if_true, if_false]
        exact consumes_cons hc (ih _)
    by_cases h6 : (hex && isHexLetter c) = true
    · have hc : floatChar c = true := by
        simp only [Bool.and_eq_true] at h6
        simp [floatChar, h6.2]
      simp only [readDigits, h1, h2, h4, h6, if_true, if_false]
      exact consumes_cons hc (ih _)
    · simp only [readDigits, h1, h2, h4, h6, if_true, if_false]
      exact consumes_nil _

theorem readExpDigits_consumes (cs : List Char) :
    ∀ (e : Nat) (u : Bool),
      ∃ pre, cs = pre ++ (readExpDigits cs e u).2.2 ∧ ∀ c ∈ pre, floatChar c = true := by
  induction cs with
  | nil => intro e u; exact ⟨[], by simp [readExpDigits], by simp⟩
  | cons c cs ih =>
    intro e u
    by_cases h1 : isDigit c = true
    · simp only [readExpDigits, h1, if_true]
      exact consumes_cons (by simp [floatChar, h1]) (ih _ _)
    by_cases h2 : c = '_'
    · simp only [readExpDigits, h1, h2, if_true, if_false]
      exact consumes_cons (by decide) (ih _ _)
    · simp only [readExpDigits, h1, h2, if_true, if_false]
      exact consumes_nil _

theorem Consumes.refl (s : List Char) : Consumes s s := consumes_nil s

theorem Consumes.cons {c : Char} {cs rest : List Char} (hc : floatChar c = true)
    (h : Consumes cs rest) : Consumes (c :: cs) rest := consumes_cons hc h

theorem Consumes.trans {a b c : List Char} (h1 : Consumes a b) (h2 : Consumes b c) :
    Consumes a c := by
  obtain ⟨p1, e1, a1⟩ := h1
  obtain ⟨p2, e2, a2⟩ := h2
  refine ⟨p1 ++ p2, by rw [e1, e2, List.append_assoc], ?_⟩
  intro x hx
  rcases List.mem_append.mp hx with hx | hx
  · exact a1 x hx
  · exact a2 x hx

theorem Consumes.all {s : List Char} (h : Consumes s []) : ∀ c ∈ s, floatChar c = true := by
  obtain ⟨pre, e, hall⟩ := h
  simp at e
  subst e
  exact hall

theorem readExponent_consumes (hex : Bool) (s : List Char) (u : Bool)
    (e : Int) (u' : Bool) (rest : List Char)
    (h : readExponent hex s u = some (e, u', rest)) : Consumes s rest := by
  cases s with
  | nil =>
    cases hex <;> simp [readExponent] at h
    obtain ⟨_, _, hrest⟩ := h
    subst hrest
    exact Consumes.refl _
  | cons c s1 =>
    by_cases hc : lower c = (if hex = true then 112 else 101)
    · have hfc : floatChar c = true := by
        cases hex
        · simp only [Bool.false_eq_true, if_false] at hc
          simp [floatChar, hc]
        · simp only [if_true] at hc
          simp [floatChar, hc]
      apply Consumes.cons hfc
      cases s1 with
      | nil => simp [readExponent, hc] at h
      | cons d s2 =>
        by_cases hd : d = '+' ∨ d = '-'
        · have hfd : floatChar d = true := by
            rcases hd with rfl | rfl <;> decide
          apply Consumes.cons hfd
          cases s2 with
          | nil => simp [readExponent, hc, hd] at h
          | cons f s4 =>
            by_cases hf : isDigit f = true
            · simp only [readExponent, hc, hd, hf, if_true, Option.some.injEq,
                Prod.mk.injEq] at h
              obtain ⟨_, _, hrest⟩ := h
              rw [← hrest]
              exact readExpDigits_consumes _ _ _
            · simp [readExponent, hc, hd, hf] at h
        · by_cases hf : isDigit d = true
          · simp only [readExponent, hc, hd, hf, if_true, if_false, Option.some.injEq,
              Prod.mk.injEq] at h
            obtain ⟨_, _, hrest⟩ := h
            rw [← hrest]
            exact readExpDigits_consumes _ _ _
          · simp [readExponent, hc, hd, hf] at h
    · cases hex
      · simp only [Bool.false_eq_true, if_false] at hc
        simp only [readExponent, hc, if_false, Bool.false_eq_true, Option.some.injEq,
          Prod.mk.injEq] at h
        obtain ⟨_, _, hrest⟩ := h
        rw [← hrest]
        exact Consumes.refl _
      · simp only [if_true] at hc
        simp [readExponent, hc] at h

/-- The sign step of `readFloat`. -/
theorem sign_consumes (c0 : Char) (tl : List Char) :
    Consumes (c0 :: tl) (if c0 = '+' ∨ c0 = '-' then tl else c0 :: tl) := by
  by_cases h : c0 = '+' ∨ c0 = '-'
  · simp only [h, if_true]
    exact Consumes.cons (by rcases h with rfl | rfl <;> decide) (Consumes.refl _)
  · simp only [h, if_false]
    exact Consumes.refl _

/-- The base prefix step of `readFloat`. -/
theorem prefix_consumes (s1 : List Char) :
    Consumes s1 (if hexPrefix s1 = true then s1.drop 2 else s1) := by
  match s1 with
  | [] => simp [hexPrefix]; exact Consumes.refl _
  | [_] => simp [hexPrefix]; exact Consumes.refl _
  | [_, _] => simp [hexPrefix]; exact Consumes.refl _
  | a :: b :: c :: r =>
    by_cases h : a = '0' ∧ lower b = 120
    · simp only [hexPrefix, h, and_self, decide_True, if_true, List.drop_succ_cons,
        List.drop_zero]
      exact Consumes.cons (by decide)
        (Consumes.cons (by simp [floatChar, h.2]) (Consumes.refl _))
    · simp only [hexPrefix, h, decide_False, Bool.false_eq_true, if_false]
      exact Consumes.refl _

theorem readFloatExp_consumes (s : List Char) (neg hex : Bool) (st : Digits)
    (rest : List Char) (l : FloatLit) (h : readFloatExp s neg hex st rest = some l) :
    Consumes rest l.rest := by
  unfold readFloatExp at h
  split at h
  · simp at h
  · dsimp only at h
    cases hexp : readExponent hex rest st.underscores with
    | none => simp [hexp] at h
    | some r =>
      obtain ⟨e, u, rest1⟩ := r
      simp only [hexp] at h
      split at h
      · simp at h
      · simp only [Option.some.injEq] at h
        subst h
        exact readExponent_consumes _ _ _ _ _ _ hexp

/-- What `readFloat` reads is made of float characters. -/
theorem readFloat_consumes (s : List Char) (l : FloatLit) (h : readFloat s = some l) :
    Consumes s l.rest := by
  cases s with
  | nil => simp [readFloat] at h
  | cons c0 tl =>
    simp only [readFloat] at h
    exact ((sign_consumes c0 tl).trans (prefix_consumes _)).trans
      (Consumes.trans (readDigits_consumes _ _ _) (readFloatExp_consumes _ _ _ _ _ _ h))

theorem commonPrefix_consumes (pre : List Char) (s : List Char) :
    ∀ c ∈ s.take (commonPrefixLenIgnoreCase s pre), pre.any (fun p => foldAZ c == p.toNat) = true := by
  induction s generalizing pre with
  | nil => simp
  | cons c s ih =>
    cases pre with
    | nil => simp [commonPrefixLenIgnoreCase]
    | cons p pre =>
      by_cases hc : foldAZ c = p.toNat
      · simp only [commonPrefixLenIgnoreCase, hc, if_true, List.take_succ_cons]
        intro x hx
        rcases List.mem_cons.mp hx with rfl | hx
        · simp [hc]
        · have := ih pre x hx
          simp only [List.any_cons, this, Bool.or_true]
      · simp [commonPrefixLenIgnoreCase, hc]

theorem floatChar_of_inf (c : Char)
    (h : "infinity".data.any (fun p => foldAZ c == p.toNat) = true) : floatChar c = true := by
  unfold floatChar
  rw [List.any_append, h]
  simp

theorem floatChar_of_nan (c : Char)
    (h : "nan".data.any (fun p => foldAZ c == p.toNat) = true) : floatChar c = true := by
  unfold floatChar
  rw [List.any_append, h]
  simp

theorem specialInf_consumes (s : List Char) (k n : Nat) (h : specialInf s k = some n)
    (hn : n = k + s.length) : ∀ c ∈ s, floatChar c = true := by
  unfold specialInf at h
  have hall := commonPrefix_consumes "infinity".data s
  generalize commonPrefixLenIgnoreCase s "infinity".data = m at h hall
  have hlen : s.length ≤ m := by
    by_cases hm : 3 < m ∧ m < 8
    · simp only [hm, and_self, if_true, true_or, Option.some.injEq] at h
      omega
    · simp only [hm, if_false] at h
      split at h
      · simp only [Option.some.injEq] at h
        omega
      · simp at h
  rw [List.take_of_length_le hlen] at hall
  exact fun c hc => floatChar_of_inf c (hall c hc)

theorem special_consumes (s : List Char) (n : Nat) (h : special s = some n)
    (hn : n = s.length) : ∀ c ∈ s, floatChar c = true := by
  cases s with
  | nil => simp [special] at h
  | cons c rest =>
    by_cases h1 : c = '+' ∨ c = '-'
    · simp only [special, h1, if_true] at h
      have hrest := specialInf_consumes rest 1 n h (by simp at hn; omega)
      intro x hx
      rcases List.mem_cons.mp hx with rfl | hx
      · rcases h1 with rfl | rfl <;> decide
      · exact hrest x hx
    by_cases h2 : c = 'i' ∨ c = 'I'
    · simp only [special, h1, h2, if_true, if_false] at h
      exact specialInf_consumes (c :: rest) 0 n h (by omega)
    by_cases h3 : c = 'n' ∨ c = 'N'
    · simp only [special, h1, h2, h3, if_true, if_false] at h
      split at h
      · rename_i h3len
        simp only [Option.some.injEq] at h
        have hall := commonPrefix_consumes "nan".data (c :: rest)
        rw [List.take_of_length_le (by rw [h3len, h, hn])] at hall
        exact fun x hx => floatChar_of_nan x (hall x hx)
      · simp at h
    · simp [special, h1, h2, h3] at h

/-- A string `ParseFloat` accepts is made of float characters. -/
theorem parseFloatOk_chars (s : List Char) (h : parseFloatOk s = true) :
    ∀ c ∈ s, floatChar c = true := by
  unfold parseFloatOk at h
  cases hs : special s with
  | some n =>
    simp only [hs, beq_iff_eq] at h
    exact special_consumes s n hs h
  | none =>
    simp only [hs] at h
    cases hr : readFloat s with
    | none => simp [hr] at h
    | some l =>
      simp only [hr, Bool.and_eq_true, List.isEmpty_iff] at h
      have := readFloat_consumes s l hr
      rw [h.1] at this
      exact this.all

end strconv

theorem digitChar_ne_newline (d : Nat) (h : d < 10) : Nat.digitChar d ≠ '\n' := by
  interval_cases d <;> decide

theorem toDigitsCore_no_newline (fuel : Nat) :
    ∀ (n : Nat) (ds : List Char), '\n' ∉ ds → '\n' ∉ Nat.toDigitsCore 10 fuel n ds := by
  induction fuel with
  | zero => intro n ds h; simpa [Nat.toDigitsCore] using h
  | succ fuel ih =>
    intro n ds h
    have hcons : '\n' ∉ Nat.digitChar (n % 10) :: ds := by
      intro hmem
      rcases List.mem_cons.mp hmem with h1 | h1
      · exact digitChar_ne_newline _ (Nat.mod_lt _ (by decide)) h1.symm
      · exact h h1
    simp only [Nat.toDigitsCore]
    split
    · exact hcons
    · exact ih _ _ hcons

theorem toString_no_newline (n : Nat) : '\n' ∉ (toString n).data := by
  show '\n' ∉ (Nat.repr n).data
  simp only [Nat.repr, Nat.toDigits, List.asString]
  exact toDigitsCore_no_newline _ _ _ (by simp)

theorem lines_cons_line (b : List Char) (rest : String) (hb : '\n' ∉ b) :
    lines (String.mk (b ++ ['\n']) ++ rest) = String.mk b :: lines rest := by
  unfold lines
  have hsplit : (b ++ '\n' :: rest.data).splitOnP (fun x => x == '\n')
      = b :: rest.data.splitOnP (fun x => x == '\n') :=
    List.splitOnP_first _ _ (fun x hx hp => hb (by simp at hp; rw [← hp]; exact hx)) '\n'
      (by simp) rest.data
  simp only [String.data_append, List.append_assoc, List.singleton_append, List.splitOn]
  rw [hsplit]
  simp

theorem lines_last (t : String) (ht : '\n' ∉ t.data) : lines (t ++ "\n") = [t, ""] := by
  unfold lines
  have hsplit : (t.data ++ ['\n']).splitOnP (fun x => x == '\n')
      = t.data :: ([] : List Char).splitOnP (fun x => x == '\n') :=
    List.splitOnP_first _ _ (fun x hx hp => ht (by simp at hp; rw [← hp]; exact hx)) '\n'
      (by simp) []
  simp only [String.data_append, List.splitOn]
  show List.map String.mk (List.splitOnP (fun x => x == '\n') (t.data ++ ['\n'])) = _
  rw [hsplit]
  simp [List.splitOnP_nil]

/-- A text made of newline-terminated lines, none of which is `t`, followed by the line `t`
has exactly one line equal to `t`. -/
theorem count_lines (L : List String) (t : String) (ht : '\n' ∉ t.data) (hne : t ≠ "")
    (hL : ∀ l ∈ L, ∃ b, l = String.mk (b ++ ['\n']) ∧ '\n' ∉ b ∧ String.mk b ≠ t) :
    (lines (String.join L ++ (t ++ "\n"))).count t = 1 := by
  induction L with
  | nil =>
    simp only [join_nil, String.empty_append]
    rw [lines_last t ht]
    simp [List.count_cons, Ne.symm hne]
  | cons l L ih =>
    obtain ⟨b, hl, hb, hbt⟩ := hL l (by simp)
    rw [join_cons, String.append_assoc, hl, lines_cons_line b _ hb, List.count_cons,
      ih (fun x hx => hL x (by simp [hx]))]
    simp [hbt]

theorem appendCount_eq (result : String) (n : Nat) :
    appendCount result n = result ++ (countLine n ++ "\n") := by
  simp only [appendCount, countLine, String.append_assoc]
  rfl

theorem isNumeric_no_newline (v : String) (h : isNumeric v = true) : '\n' ∉ v.data := by
  intro hmem
  have := strconv.parseFloatOk_chars v.data h '\n' hmem
  revert this
  decide

theorem metricList_no_newline : ∀ m ∈ metricList, '\n' ∉ m.data := by decide

theorem metricList_take : ∀ m ∈ metricList, ∀ x : List Char,
    (m.data ++ x).take 6 ≠ "gpu_co".data := by
  intro m hm x
  simp only [metricList, List.mem_cons, List.mem_singleton, List.not_mem_nil, or_false] at hm
  rcases hm with rfl | rfl | rfl | rfl | rfl | rfl | rfl | rfl | rfl | rfl | rfl | rfl | rfl
    | rfl | rfl | rfl <;> simp

theorem countLine_take (n : Nat) : (countLine n).data.take 6 = "gpu_co".data := by
  simp [countLine]

theorem metricLine_shape (m name idx v : String) (n : Nat) (hm : m ∈ metricList)
    (h0 : '\n' ∉ name.data) (h1 : '\n' ∉ idx.data) (hv : isNumeric v = true) :
    ∃ b, metricLine m name idx v = String.mk (b ++ ['\n']) ∧ '\n' ∉ b
      ∧ String.mk b ≠ countLine n := by
  refine ⟨m.data ++ ("\x7bgpu=\"".data ++ (name.data ++ ("[".data ++ (idx.data ++
    ("]".data ++ ("\"\x7d ".data ++ v.data)))))), ?_, ?_, ?_⟩
  · apply String.ext
    simp [metricLine, deviceLabel, String.data_append, List.append_assoc]
  · have hmn := metricList_no_newline m hm
    have hvn := isNumeric_no_newline v hv
    simp only [List.mem_append, not_or]
    refine ⟨hmn, by decide, h0, by decide, h1, by decide, by decide, hvn⟩
  · intro heq
    have hd := congrArg String.data heq
    have ht := congrArg (List.take 6) hd
    rw [countLine_take] at ht
    exact metricList_take m hm _ ht

theorem readAll_ok (rows : List (List String)) :
    ∀ acc, csv.ReadAll (rows.map Except.ok) acc = (acc ++ rows, none) := by
  induction rows with
  | nil => intro acc; simp [csv.ReadAll]
  | cons r rows ih => intro acc; simp [csv.ReadAll, ih]

theorem readAll_error (rows : List (List String)) (e : String) (later : List csv.ReadResult) :
    ∀ acc, csv.ReadAll (rows.map Except.ok ++ Except.error e :: later) acc = ([], some e) := by
  induction rows with
  | nil => intro acc; simp [csv.ReadAll]
  | cons r rows ih => intro acc; simp [csv.ReadAll, ih]

/-- The rendered text of a successful scrape: the lines of the rows, then the count line. -/
theorem renderedText_rows (reader : String → List csv.ReadResult) (out : String)
    (rows : List (List String)) (hreader : reader out = rows.map Except.ok)
    (hrows : ∀ row ∈ rows, RowOk row) :
    renderedText reader out none
      = .ok (String.join (rows.map fun row => String.join (rowLines row))
          ++ (countLine rows.length ++ "\n")) := by
  simp only [renderedText, hreader, readAll_ok, List.nil_append, parseCSV_ok rows hrows,
    appendCount_eq]

theorem join_join (ls : List (List String)) :
    String.join (ls.map String.join) = String.join ls.flatten := by
  induction ls with
  | nil => rfl
  | cons l ls ih => simp [join_cons, join_append, ih]

theorem rowLines_shape (row : List String) (n : Nat) (hrow : RowOk row)
    (h0 : '\n' ∉ (row.getD 0 "").data) (h1 : '\n' ∉ (row.getD 1 "").data) :
    ∀ l ∈ rowLines row, ∃ b, l = String.mk (b ++ ['\n']) ∧ '\n' ∉ b
      ∧ String.mk b ≠ countLine n := by
  intro l hl
  rw [rowLines_eq_zip row hrow] at hl
  simp only [List.mem_map, List.mem_filter] at hl
  obtain ⟨p, ⟨hp, hnum⟩, rfl⟩ := hl
  exact metricLine_shape p.1 _ _ p.2 n (List.of_mem_zip hp).1 h0 h1 hnum

theorem toString_ne_newline_of (n : Nat) : '\n' ∉ (countLine n).data := by
  have := toString_no_newline n
  simp only [countLine, String.data_append, List.mem_append, not_or]
  exact ⟨by decide, this⟩

theorem countLine_ne_empty (n : Nat) : countLine n ≠ "" := by
  intro h
  have := congrArg (fun s => (String.data s).take 6) h
  simp [countLine] at this

theorem count_countLine (rows : List (List String)) (n : Nat)
    (hrows : ∀ row ∈ rows, RowOk row ∧ '\n' ∉ (row.getD 0 "").data
      ∧ '\n' ∉ (row.getD 1 "").data) :
    (lines (String.join (rows.map fun row => String.join (rowLines row))
      ++ (countLine n ++ "\n"))).count (countLine n) = 1 := by
  have hmap : (rows.map fun row => String.join (rowLines row))
      = (rows.map rowLines).map String.join := by simp
  rw [hmap, join_join]
  apply count_lines _ _ (toString_ne_newline_of n) (countLine_ne_empty n)
  intro l hl
  simp only [List.mem_flatten, List.mem_map] at hl
  obtain ⟨ls, ⟨row, hrow, rfl⟩, hl⟩ := hl
  obtain ⟨hok, h0, h1⟩ := hrows row hrow
  exact rowLines_shape row n hok h0 h1 l hl

theorem doPrintf_plain (cs : List Char) (h : '%' ∉ cs) :
    ∀ fuel, cs.length ≤ fuel → fmt.doPrintf fuel cs = cs := by
  induction cs with
  | nil => intro fuel _; cases fuel <;> rfl
  | cons c cs ih =>
    intro fuel hf
    cases fuel with
    | zero => simp at hf
    | succ fuel =>
      have hc : c ≠ '%' := fun e => h (by simp [e])
      simp only [fmt.doPrintf, hc, if_false]
      rw [ih (fun hm => h (by simp [hm])) fuel (by simpa using hf)]

/-- A format without a percent sign is written as it is. -/
theorem Fprintf_plain (s : String) (h : '%' ∉ s.data) : fmt.Fprintf s = s := by
  simp only [fmt.Fprintf, doPrintf_plain s.data h _ (Nat.le_refl _)]

theorem rowLines_skip (pre post : List String) (v : String) (hpre : 2 ≤ pre.length)
    (hv : isNumeric v = false) :
    rowLines (pre ++ v :: post)
      = rowLines pre ++ linesFrom (pre.getD 0 "") (pre.getD 1 "") (pre.length - 1) post := by
  have h0 : (pre ++ v :: post).getD 0 "" = pre.getD 0 "" := by
    simp [List.getD_eq_getElem?_getD, List.getElem?_append_left (show 0 < pre.length by omega)]
  have h1 : (pre ++ v :: post).getD 1 "" = pre.getD 1 "" := by
    simp [List.getD_eq_getElem?_getD, List.getElem?_append_left (show 1 < pre.length by omega)]
  have hdrop : (pre ++ v :: post).drop 2 = pre.drop 2 ++ v :: post :=
    List.drop_append_of_le_length hpre
  rw [← linesFrom_drop_two, ← linesFrom_drop_two, h0, h1, hdrop, linesFrom_append]
  have hidx : 0 + (pre.drop 2).length + 1 = pre.length - 1 := by
    simp; omega
  simp only [linesFrom, hv, Bool.false_eq_true, if_false, hidx]

theorem rowOk_skip (pre post : List String) (v : String) (hpre : 2 ≤ pre.length)
    (hlen : pre.length + 1 + post.length ≤ 18) : RowOk (pre ++ v :: post) :=
  rowOk_of_le _ (by simp; omega) (by simp; omega)

theorem rowLines_count (row : List String) (h : RowOk row) :
    (rowLines row).length
      = ((List.range (row.length - 2)).filter fun i =>
          decide (i < metricList.length) && isNumeric (row.getD (i + 2) "")).length := by
  unfold rowLines
  rw [List.length_map]
  congr 1
  apply List.filter_congr
  intro i hi
  have hi' : i < (row.drop 2).length := by simpa using hi
  by_cases hn : isNumeric (row.getD (i + 2) "") = true
  · have := rowOk_cells row h i hi' (by
      simpa [List.getD_eq_getElem?_getD, Nat.add_comm 2 i] using hn)
    simp [hn, metricList_length]
    omega
  · simp only [Bool.not_eq_true, List.getD_eq_getElem?_getD] at hn
    simp [hn]

theorem rowLines_le (row : List String) (h : RowOk row) : (rowLines row).length ≤ 16 := by
  rw [rowLines_eq_zip row h, List.length_map]
  refine Nat.le_trans (List.length_filter_le _ _) ?_
  rw [List.length_zip, metricList_length]
  exact Nat.min_le_left _ _

theorem parseCSV_single (row : List String) (h : RowOk row) :
    parseCSV [row] = .ok (String.join (rowLines row)) := by
  rw [parseCSV_ok [row] (by simpa using h)]
  simp [join_cons, join_nil]

theorem parseCSV_take (records : List (List String)) (h : ∀ row ∈ records, RowOk row) :
    parseCSV (records.map (List.take 18)) = parseCSV records := by
  rw [parseCSV_ok records h, parseCSV_ok]
  · rw [List.map_map]
    congr 2
    apply List.map_congr_left
    intro row hrow
    simp [rowLines_take row (h row hrow)]
  · intro row hrow
    obtain ⟨r, hr, rfl⟩ := List.mem_map.mp hrow
    exact rowOk_take r (h r hr).1

theorem parsenum_length (cs : List Char) :
    ∀ (num : Nat) (isnum : Bool), (fmt.parsenum cs num isnum).2.2.length ≤ cs.length := by
  induction cs with
  | nil => intro num isnum; simp [fmt.parsenum]
  | cons c cs ih =>
    intro num isnum
    by_cases h1 : strconv.isDigit c = true
    · by_cases h2 : 1000000 < num
      · simp [fmt.parsenum, h1, h2]
      · simp only [fmt.parsenum, h1, h2, if_true, if_false, List.length_cons]
        exact Nat.le_succ_of_le (ih _ _)
    · simp [fmt.parsenum, h1]

theorem argNumber_length (d : fmt.Directive) : (fmt.argNumber d).rest.length ≤ d.rest.length := by
  unfold fmt.argNumber
  split
  · split
    · simp
    · simp
  · simp

theorem width_length (d : fmt.Directive) : (fmt.width d).rest.length ≤ d.rest.length := by
  unfold fmt.width
  split
  · rename_i r heq
    rw [heq]
    simp
  · exact parsenum_length _ _ _

theorem precision_length (d : fmt.Directive) : (fmt.precision d).rest.length ≤ d.rest.length := by
  unfold fmt.precision
  split
  · rename_i r heq
    have h1 := argNumber_length
      { d with rest := r, goodArgNum := d.goodArgNum && !d.afterIndex }
    simp only at h1
    dsimp only
    split
    · rename_i r2 heq2
      rw [heq2] at h1
      simp only [heq, List.length_cons] at h1 ⊢
      omega
    · have h2 := parsenum_length
        (fmt.argNumber { d with rest := r, goodArgNum := d.goodArgNum && !d.afterIndex }).rest
        0 false
      simp only [heq, List.length_cons] at h1 h2 ⊢
      omega
  · exact Nat.le_refl _

theorem verb_length (d : fmt.Directive) : (fmt.verb d).2.length ≤ d.rest.length := by
  unfold fmt.verb
  split
  · simp
  · rename_i v r heq
    rw [heq]
    split
    · simp
    · split <;> simp

theorem directive_length (s : List Char) : (fmt.directive s).2.length ≤ s.length := by
  unfold fmt.directive
  have h0 : (s.dropWhile fmt.isFlag).length ≤ s.length :=
    (List.dropWhile_sublist _).length_le
  have h1 := argNumber_length ⟨s.dropWhile fmt.isFlag, false, true, []⟩
  have h2 := width_length (fmt.argNumber ⟨s.dropWhile fmt.isFlag, false, true, []⟩)
  have h3 := precision_length
    (fmt.width (fmt.argNumber ⟨s.dropWhile fmt.isFlag, false, true, []⟩))
  have h4 := argNumber_length (fmt.precision
    (fmt.width (fmt.argNumber ⟨s.dropWhile fmt.isFlag, false, true, []⟩)))
  simp only at h1
  dsimp only
  refine Nat.le_trans (verb_length _) ?_
  split <;> omega

/-- The fuel of `doPrintf` is enough: any two amounts of at least the length of the format
give the same text. -/
theorem doPrintf_fuel (fuel1 : Nat) :
    ∀ (fuel2 : Nat) (cs : List Char), cs.length ≤ fuel1 → cs.length ≤ fuel2 →
      fmt.doPrintf fuel1 cs = fmt.doPrintf fuel2 cs := by
  induction fuel1 with
  | zero =>
    intro fuel2 cs h1 _
    have : cs = [] := List.length_eq_zero.mp (Nat.le_zero.mp h1)
    subst this
    cases fuel2 <;> rfl
  | succ f1 ih =>
    intro fuel2 cs h1 h2
    cases cs with
    | nil => cases fuel2 <;> rfl
    | cons c cs =>
      cases fuel2 with
      | zero => simp at h2
      | succ f2 =>
        simp only [List.length_cons, Nat.add_le_add_iff_right] at h1 h2
        have hd := directive_length cs
        simp only [fmt.doPrintf]
        split
        · rw [ih f2 _ (by omega) (by omega)]
        · rw [ih f2 _ h1 h2]

theorem digitChar_ne_percent (d : Nat) (h : d < 10) : Nat.digitChar d ≠ '%' := by
  interval_cases d <;> decide

theorem toDigitsCore_no_percent (fuel : Nat) :
    ∀ (n : Nat) (ds : List Char), '%' ∉ ds → '%' ∉ Nat.toDigitsCore 10 fuel n ds := by
  induction fuel with
  | zero => intro n ds h; simpa [Nat.toDigitsCore] using h
  | succ fuel ih =>
    intro n ds h
    have hcons : '%' ∉ Nat.digitChar (n % 10) :: ds := by
      intro hmem
      rcases List.mem_cons.mp hmem with h1 | h1
      · exact digitChar_ne_percent _ (Nat.mod_lt _ (by decide)) h1.symm
      · exact h h1
    simp only [Nat.toDigitsCore]
    split
    · exact hcons
    · exact ih _ _ hcons

theorem countLine_no_percent (n : Nat) : '%' ∉ (countLine n ++ "\n").data := by
  have h : '%' ∉ (Nat.repr n).data := by
    simp only [Nat.repr, Nat.toDigits, List.asString]
    exact toDigitsCore_no_percent _ _ _ (by simp)
  simp only [countLine, String.data_append, List.mem_append, not_or]
  exact ⟨⟨by decide, h⟩, by decide⟩

theorem isNumeric_no_percent (v : String) (h : isNumeric v = true) : '%' ∉ v.data := by
  intro hmem
  have := strconv.parseFloatOk_chars v.data h '%' hmem
  revert this
  decide

theorem metricList_no_percent : ∀ m ∈ metricList, '%' ∉ m.data := by decide

theorem rowLines_no_percent (row : List String) (hrow : RowOk row)
    (h0 : '%' ∉ (row.getD 0 "").data) (h1 : '%' ∉ (row.getD 1 "").data) :
    ∀ l ∈ rowLines row, '%' ∉ l.data := by
  intro l hl
  rw [rowLines_eq_zip row hrow] at hl
  simp only [List.mem_map, List.mem_filter] at hl
  obtain ⟨p, ⟨hp, hnum⟩, rfl⟩ := hl
  have hm := metricList_no_percent p.1 (List.of_mem_zip hp).1
  have hv := isNumeric_no_percent p.2 hnum
  simp only [metricLine, deviceLabel, String.data_append, List.mem_append, not_or]
  refine ⟨⟨⟨⟨⟨hm, by decide⟩, ⟨⟨h0, by decide⟩, h1⟩, by decide⟩, by decide⟩, hv⟩, by decide⟩

theorem renderedText_no_percent (rows : List (List String)) (n : Nat)
    (hrows : ∀ row ∈ rows, RowOk row ∧ '%' ∉ (row.getD 0 "").data
      ∧ '%' ∉ (row.getD 1 "").data) :
    '%' ∉ (String.join (rows.map fun row => String.join (rowLines row))
      ++ (countLine n ++ "\n")).data := by
  rw [String.data_append, List.mem_append, not_or]
  refine ⟨?_, countLine_no_percent n⟩
  simp only [String.data_join, List.map_map, List.mem_flatten, List.mem_map,
    Function.comp_apply, not_exists, not_and]
  intro cs hcs hmem
  obtain ⟨row, hrow, rfl⟩ := hcs
  simp only [List.mem_flatten, List.mem_map] at hmem
  obtain ⟨ds, ⟨l, hl, rfl⟩, hmem⟩ := hmem
  obtain ⟨hok, h0, h1⟩ := hrows row hrow
  exact rowLines_no_percent row hok h0 h1 l hl hmem

/-! ## Main theorems -/

/-- Claim C1: for every list of rows with 2 to 18 cells each, `parseCSV` returns exactly the
concatenation, in row order and then in column order, of one line
`<metricList[i]>{gpu="<cell0>[<cell1>]"} <cell>` for each cell at position `i+2` that
`isNumeric` accepts; and the two example rows give the three lines of the example. -/
theorem parseCSV_lines_in_order (records : List (List String))
    (h : ∀ row ∈ records, 2 ≤ row.length ∧ row.length ≤ 18) :
    parseCSV records
        = .ok (String.join (records.map fun row => String.join (rowLines row)))
      ∧ parseCSV [["A", "0", "100.5", "250"], ["B", "1", "N/A", "300"]]
        = .ok ("gpu_power_draw\x7bgpu=\"A[0]\"\x7d 100.5\n"
            ++ "gpu_power_limit\x7bgpu=\"A[0]\"\x7d 250\n"
            ++ "gpu_power_limit\x7bgpu=\"B[1]\"\x7d 300\n") := by
  refine ⟨parseCSV_ok records fun row hrow => ?_, by decide⟩
  exact rowOk_of_le row (h row hrow).1 (h row hrow).2

/-- Witness of C1 on a two-device report whose second row is short. -/
theorem parseCSV_lines_in_order_witness :
    (∀ row ∈ [row18, ["B", "1", "N/A", "300"]], 2 ≤ row.length ∧ row.length ≤ 18)
      ∧ parseCSV [row18, ["B", "1", "N/A", "300"]]
        = .ok ("gpu_power_draw\x7bgpu=\"NVIDIA H100[0]\"\x7d 350.2\n"
            ++ "gpu_power_limit\x7bgpu=\"NVIDIA H100[0]\"\x7d 400.0\n"
            ++ "gpu_power_limit\x7bgpu=\"B[1]\"\x7d 300\n") :=
  ⟨by decide,
    (parseCSV_lines_in_order [row18, ["B", "1", "N/A", "300"]] (by decide)).1.trans
      (by decide)⟩

/-- Claim C2: when the external command fails, whatever output was captured, the text that
`metrics` renders is exactly `gpu_count{} 0` and a newline, with no metric line, and that is
also the body it writes. -/
theorem metrics_command_failure (reader : String → List csv.ReadResult) (out e : String) :
    renderedText reader out (some e) = .ok "gpu_count\x7b\x7d 0\n"
      ∧ metrics reader out (some e) = .ok "gpu_count\x7b\x7d 0\n" := by
  constructor
  · rfl
  · simp only [metrics, renderedText]
    decide

/-- Counterexample to C3: one parsed row of 18 cells whose device name holds line breaks
makes the rendered text contain two lines equal to `gpu_count{} 1`. -/
theorem count_line_twice :
    rowNewline.length = 18
      ∧ ∃ text, renderedText (fun _ => [.ok rowNewline]) "" none = .ok text
        ∧ (lines text).count (countLine 1) = 2 := by
  refine ⟨by decide, _, rfl, ?_⟩
  decide

/-- Claim C3, amended: for every list of `N` parsed rows with 18 cells each whose device
name and index cells hold no newline, the text rendered by `metrics` has exactly one line
equal to `gpu_count{} N`. -/
theorem count_line_once (reader : String → List csv.ReadResult) (out : String)
    (rows : List (List String)) (hreader : reader out = rows.map Except.ok)
    (hrows : ∀ row ∈ rows, row.length = 18 ∧ '\n' ∉ (row.getD 0 "").data
      ∧ '\n' ∉ (row.getD 1 "").data) :
    ∃ text, renderedText reader out none = .ok text
      ∧ (lines text).count (countLine rows.length) = 1 := by
  have hok : ∀ row ∈ rows, RowOk row := fun row hrow =>
    rowOk_of_le row (by have := (hrows row hrow).1; omega) (by have := (hrows row hrow).1; omega)
  refine ⟨_, renderedText_rows reader out rows hreader hok, ?_⟩
  exact count_countLine rows rows.length fun row hrow =>
    ⟨hok row hrow, (hrows row hrow).2.1, (hrows row hrow).2.2⟩

/-- Witness of the amended C3 on a report of two devices. -/
theorem count_line_once_witness :
    (∀ row ∈ [row18, row18], row.length = 18 ∧ '\n' ∉ (row.getD 0 "").data
        ∧ '\n' ∉ (row.getD 1 "").data)
      ∧ ∃ text, renderedText (fun _ => [row18, row18].map Except.ok) "" none = .ok text
        ∧ (lines text).count (countLine 2) = 1 :=
  ⟨by decide, count_line_once (fun _ => [row18, row18].map Except.ok) "" [row18, row18] rfl
    (by decide)⟩

/-- Counterexample to C4: a row with one cell, and a row with none, end `parseCSV` with an
index-out-of-range panic. -/
theorem parseCSV_short_row_panics :
    parseCSV [["A"]] = .error (.indexOutOfRange 1 1)
      ∧ parseCSV [[]] = .error (.indexOutOfRange 0 0) := by
  decide

/-- Claim C4, amended: for every list of rows with at least 2 and at most 18 cells each (so
also when rows have fewer than the 18 expected), `parseCSV` completes, and it pairs a cell
with a metric name only where both exist: its lines are those of the pairs of `metricList`
zipped with the cells after the two identity cells. -/
theorem parseCSV_short_rows (records : List (List String))
    (h : ∀ row ∈ records, 2 ≤ row.length ∧ row.length ≤ 18) :
    parseCSV records
      = .ok (String.join (records.map fun row => String.join
          (((metricList.zip (row.drop 2)).filter fun p => isNumeric p.2).map fun p =>
            metricLine p.1 (row.getD 0 "") (row.getD 1 "") p.2))) := by
  have hok : ∀ row ∈ records, RowOk row := fun row hrow =>
    rowOk_of_le row (h row hrow).1 (h row hrow).2
  rw [parseCSV_ok records hok]
  congr 2
  apply List.map_congr_left
  intro row hrow
  rw [rowLines_eq_zip row (hok row hrow)]

/-- Witness of the amended C4 on rows of 3 and of 2 cells. -/
theorem parseCSV_short_rows_witness :
    (∀ row ∈ [["A", "0", "1"], ["B", "1"]], 2 ≤ row.length ∧ row.length ≤ 18)
      ∧ parseCSV [["A", "0", "1"], ["B", "1"]]
        = .ok "gpu_power_draw\x7bgpu=\"A[0]\"\x7d 1\n" :=
  ⟨by decide, (parseCSV_short_rows [["A", "0", "1"], ["B", "1"]] (by decide)).trans
    (by decide)⟩

/-- Counterexample to C5: a row of 19 cells whose last cell is numeric makes `parseCSV`
panic, while the row cut to 18 cells is processed. -/
theorem parseCSV_excess_numeric_panics :
    row19.length = 19
      ∧ parseCSV [row19] = .error (.indexOutOfRange 16 16)
      ∧ parseCSV [row19] ≠ parseCSV [row19.take 18] := by
  decide

/-- Claim C5, amended: for rows with at least 2 cells whose cells past the first 18 are all
rejected by `isNumeric` (in particular rows with more than 18 cells), `parseCSV` does not
fail and ignores the excess cells: its output is that for the rows cut to their first 18
cells. -/
theorem parseCSV_excess_ignored (records : List (List String))
    (h : ∀ row ∈ records, 2 ≤ row.length ∧ ∀ cell ∈ row.drop 18, isNumeric cell = false) :
    parseCSV records = parseCSV (records.map (List.take 18))
      ∧ ∃ text, parseCSV records = .ok text :=
  ⟨(parseCSV_take records h).symm, _, parseCSV_ok records h⟩

/-- Witness of the amended C5 on a row of 20 cells. -/
theorem parseCSV_excess_ignored_witness :
    (∀ row ∈ [row20], 2 ≤ row.length ∧ ∀ cell ∈ row.drop 18, isNumeric cell = false)
      ∧ (parseCSV [row20] = parseCSV ([row20].map (List.take 18))
        ∧ ∃ text, parseCSV [row20] = .ok text) :=
  ⟨by decide, parseCSV_excess_ignored [row20] (by decide)⟩

/-- Claim C6: when the command succeeds and the CSV reader reports a parse error, whatever
rows it had read before, `metrics` renders exactly `gpu_count{} 0` and a newline, and
writes that body. -/
theorem metrics_parse_error (reader : String → List csv.ReadResult) (out e : String)
    (rows : List (List String)) (later : List csv.ReadResult)
    (hreader : reader out = rows.map Except.ok ++ Except.error e :: later) :
    renderedText reader out none = .ok "gpu_count\x7b\x7d 0\n"
      ∧ metrics reader out none = .ok "gpu_count\x7b\x7d 0\n" := by
  have h : renderedText reader out none = .ok "gpu_count\x7b\x7d 0\n" := by
    simp only [renderedText, hreader, readAll_error]
    rfl
  refine ⟨h, ?_⟩
  simp only [metrics, h]
  decide

/-- Witness of C6: the reader fails on the second record. -/
theorem metrics_parse_error_witness :
    renderedText (fun _ => [.ok row18, .error "wrong number of fields"]) "" none
        = .ok "gpu_count\x7b\x7d 0\n"
      ∧ metrics (fun _ => [.ok row18, .error "wrong number of fields"]) "" none
        = .ok "gpu_count\x7b\x7d 0\n" :=
  metrics_parse_error (fun _ => [.ok row18, .error "wrong number of fields"]) ""
    "wrong number of fields" [row18] [] rfl

/-- Counterexample to C7: a row of 19 cells has 16 numeric cells within the metric names,
yet `parseCSV` panics on it and emits nothing. -/
theorem parseCSV_count_fails :
    2 ≤ row19.length
      ∧ ((List.range (row19.length - 2)).filter fun i =>
          decide (i < metricList.length) && isNumeric (row19.getD (i + 2) "")).length = 16
      ∧ parseCSV [row19] = .error (.indexOutOfRange 16 16) := by
  decide

/-- Claim C7, amended: for every row with at least 2 cells and no numeric cell past its
first 18, the output of `parseCSV` for the row is made of the lines `rowLines`, whose number
is the number of cells at positions 2 and up that lie within the 16 metric names and are
accepted by `isNumeric`; it is at most 16. -/
theorem parseCSV_line_count (row : List String) (h2 : 2 ≤ row.length)
    (hex : ∀ cell ∈ row.drop 18, isNumeric cell = false) :
    parseCSV [row] = .ok (String.join (rowLines row))
      ∧ (rowLines row).length
        = ((List.range (row.length - 2)).filter fun i =>
            decide (i < metricList.length) && isNumeric (row.getD (i + 2) "")).length
      ∧ (rowLines row).length ≤ 16 :=
  ⟨parseCSV_single row ⟨h2, hex⟩, rowLines_count row ⟨h2, hex⟩, rowLines_le row ⟨h2, hex⟩⟩

/-- Witness of the amended C7 on a row of 20 cells with 16 numeric metric cells. -/
theorem parseCSV_line_count_witness :
    (2 ≤ row20.length ∧ ∀ cell ∈ row20.drop 18, isNumeric cell = false)
      ∧ (rowLines row20).length = 16 :=
  ⟨by decide, (parseCSV_line_count row20 (by decide) (by decide)).2.1.trans (by decide)⟩

/-- Claim C8: the sentinels `N/A`, `[Not Supported]` and the empty string are rejected by
`isNumeric`; and in a list of rows with 2 to 18 cells each, a metric cell `v` that is not
numeric yields no line and does not stop the processing: the output is the same with any
other non-numeric `w` in its place, and it is made of the lines of the rows before, of
the cells before `v`, of the cells after `v` and of the rows after. -/
theorem parseCSV_skips_non_numeric (before after : List (List String))
    (pre post : List String) (v w : String)
    (hrows : ∀ row ∈ before ++ after, 2 ≤ row.length ∧ row.length ≤ 18)
    (hpre : 2 ≤ pre.length) (hlen : pre.length + 1 + post.length ≤ 18)
    (hv : isNumeric v = false) (hw : isNumeric w = false) :
    (isNumeric "N/A" = false ∧ isNumeric "[Not Supported]" = false ∧ isNumeric "" = false)
      ∧ parseCSV (before ++ (pre ++ w :: post) :: after)
        = parseCSV (before ++ (pre ++ v :: post) :: after)
      ∧ parseCSV (before ++ (pre ++ v :: post) :: after)
        = .ok (String.join (before.map fun row => String.join (rowLines row))
            ++ String.join (rowLines pre)
            ++ String.join (linesFrom (pre.getD 0 "") (pre.getD 1 "") (pre.length - 1) post)
            ++ String.join (after.map fun row => String.join (rowLines row))) := by
  have key : ∀ x : String, isNumeric x = false →
      parseCSV (before ++ (pre ++ x :: post) :: after)
        = .ok (String.join (before.map fun row => String.join (rowLines row))
            ++ String.join (rowLines pre)
            ++ String.join (linesFrom (pre.getD 0 "") (pre.getD 1 "") (pre.length - 1) post)
            ++ String.join (after.map fun row => String.join (rowLines row))) := by
    intro x hx
    rw [parseCSV_ok]
    · simp only [List.map_append, List.map_cons, join_append, join_cons,
        rowLines_skip pre post x hpre hx, String.append_assoc]
    · intro row hrow
      rcases List.mem_append.mp hrow with hb | ha
      · exact rowOk_of_le row (hrows row (by simp [hb])).1 (hrows row (by simp [hb])).2
      · rcases List.mem_cons.mp ha with rfl | ha
        · exact rowOk_skip pre post x hpre hlen
        · exact rowOk_of_le row (hrows row (by simp [ha])).1 (hrows row (by simp [ha])).2
  exact ⟨by decide, (key w hw).trans (key v hv).symm, key v hv⟩

/-- Witness of C8: `N/A` in the middle of the second of three rows. -/
theorem parseCSV_skips_non_numeric_witness :
    parseCSV ([["A", "0", "1"]] ++ (["B", "1", "2"] ++ "" :: ["3"]) :: [["C", "2", "N/A", "4"]])
        = parseCSV ([["A", "0", "1"]] ++ (["B", "1", "2"] ++ "N/A" :: ["3"])
            :: [["C", "2", "N/A", "4"]])
      ∧ parseCSV ([["A", "0", "1"]] ++ (["B", "1", "2"] ++ "N/A" :: ["3"])
            :: [["C", "2", "N/A", "4"]])
        = .ok ("gpu_power_draw\x7bgpu=\"A[0]\"\x7d 1\n"
            ++ "gpu_power_draw\x7bgpu=\"B[1]\"\x7d 2\n"
            ++ "gpu_clock_shader_current\x7bgpu=\"B[1]\"\x7d 3\n"
            ++ "gpu_power_limit\x7bgpu=\"C[2]\"\x7d 4\n") :=
  ⟨(parseCSV_skips_non_numeric [["A", "0", "1"]] [["C", "2", "N/A", "4"]] ["B", "1", "2"]
      ["3"] "N/A" "" (by decide) (by decide) (by decide) (by decide) (by decide)).2.1,
    by decide⟩

/-- Claim C9, at the failing input: a device name `A%d` is rendered as it is, and the body
that `metrics` writes has `%!d(MISSING)` in its place, because the rendered text is used as
the format of `Fprintf`. -/
theorem metrics_body_differs :
    renderedText (fun _ => [.ok rowPercent]) "" none
        = .ok "gpu_power_draw\x7bgpu=\"A%d[0]\"\x7d 100.5\ngpu_count\x7b\x7d 1\n"
      ∧ metrics (fun _ => [.ok rowPercent]) "" none
        = .ok "gpu_power_draw\x7bgpu=\"A%!d(MISSING)[0]\"\x7d 100.5\ngpu_count\x7b\x7d 1\n" := by
  decide

/-- Claim C10: the `--query-gpu` field list is `name`, `index` and then exactly as many
fields as `metricList` has names, 16. -/
theorem query_fields_lockstep :
    queryGpuArg.data.take 12 = "--query-gpu=".data
      ∧ queryFields.take 2 = ["name", "index"]
      ∧ (queryFields.drop 2).length = metricList.length
      ∧ metricList.length = 16 := by
  decide

/-! ## Further properties -/

/-- `parseCSV` returns a text exactly when every row has its two identity cells and no
numeric cell past its first 18 cells; on any other input it ends with a panic. -/
theorem parseCSV_completes_iff (records : List (List String)) :
    (∃ text, parseCSV records = .ok text)
      ↔ ∀ row ∈ records, 2 ≤ row.length ∧ ∀ cell ∈ row.drop 18, isNumeric cell = false := by
  constructor
  · rintro ⟨text, htext⟩
    by_contra hbad
    simp only [not_forall] at hbad
    obtain ⟨row, hrow, hnot⟩ := hbad
    obtain ⟨p, hp⟩ := rowLoop_error records "" ⟨row, hrow, hnot⟩
    rw [parseCSV, hp] at htext
    cases htext
  · intro h
    exact ⟨_, parseCSV_ok records h⟩

/-- When the command and the CSV reader succeed on rows that `parseCSV` can process and
whose device name and index hold no percent sign, the body `metrics` writes is the rendered
text, character for character. -/
theorem metrics_body_plain (reader : String → List csv.ReadResult) (out : String)
    (rows : List (List String)) (hreader : reader out = rows.map Except.ok)
    (hrows : ∀ row ∈ rows, (2 ≤ row.length ∧ ∀ cell ∈ row.drop 18, isNumeric cell = false)
      ∧ '%' ∉ (row.getD 0 "").data ∧ '%' ∉ (row.getD 1 "").data) :
    metrics reader out none = renderedText reader out none := by
  have hok : ∀ row ∈ rows, RowOk row := fun row hrow => (hrows row hrow).1
  have htext := renderedText_rows reader out rows hreader hok
  simp only [metrics, htext]
  rw [Fprintf_plain _ (renderedText_no_percent rows rows.length hrows)]

/-- Witness of `metrics_body_plain` on a report of one device. -/
theorem metrics_body_plain_witness :
    (∀ row ∈ [row18], (2 ≤ row.length ∧ ∀ cell ∈ row.drop 18, isNumeric cell = false)
        ∧ '%' ∉ (row.getD 0 "").data ∧ '%' ∉ (row.getD 1 "").data)
      ∧ metrics (fun _ => [row18].map Except.ok) "" none
        = renderedText (fun _ => [row18].map Except.ok) "" none :=
  ⟨by decide, metrics_body_plain (fun _ => [row18].map Except.ok) "" [row18] rfl (by decide)⟩

/-- A string that `isNumeric` accepts is made of float characters only: it holds no blank,
newline, quote, brace or percent sign, so a metric value cannot break its line. -/
theorem isNumeric_chars (v : String) (h : isNumeric v = true) :
    (∀ c ∈ v.data, strconv.floatChar c = true)
      ∧ ∀ c ∈ [' ', '\n', '\r', '\t', '\"', '\x7b', '\x7d', '%', ',', '\\', '#'], c ∉ v.data := by
  have hall := strconv.parseFloatOk_chars v.data h
  have hbad : ∀ c ∈ [' ', '\n', '\r', '\t', '\"', '\x7b', '\x7d', '%', ',', '\\', '#'],
      strconv.floatChar c = false := by decide
  refine ⟨hall, ?_⟩
  intro c hc hmem
  have hfc := hall c hmem
  rw [hbad c hc] at hfc
  cases hfc

/-- Witness of `isNumeric_chars` on the value `350.2`. -/
theorem isNumeric_chars_witness :
    isNumeric "350.2" = true ∧ ∀ c ∈ "350.2".data, strconv.floatChar c = true :=
  ⟨by decide, (isNumeric_chars "350.2" (by decide)).1⟩

/-- The queried metric fields and the metric names, pair by pair, in the order both lists
have. -/
theorem query_fields_pairing :
    (queryFields.drop 2).zip metricList = [
      ("power.draw", "gpu_power_draw"),
      ("power.limit", "gpu_power_limit"),
      ("clocks.gr", "gpu_clock_shader_current"),
      ("clocks.max.gr", "gpu_clock_shader_maximum"),
      ("clocks.sm", "gpu_clock_streaming_multiprocessor_current"),
      ("clocks.max.sm", "gpu_clock_streaming_multiprocessor_maximum"),
      ("clocks.mem", "gpu_clock_memory_current"),
      ("clocks.max.mem", "gpu_clock_memory_maximum"),
      ("temperature.gpu", "gpu_temperature_processor"),
      ("temperature.memory", "gpu_temperature_memory"),
      ("utilization.gpu", "gpu_utilization_processor"),
      ("utilization.memory", "gpu_utilization_memory"),
      ("fan.speed", "gpu_utilization_fan"),
      ("memory.free", "gpu_memory_free"),
      ("memory.used", "gpu_memory_used"),
      ("memory.total", "gpu_memory_total")] := by
  decide

end Pgme
